import Mathlib

/-!
# Verification of the tortoise-orm query/schema core

Shallow embedding of `tortoise/query_utils.py` and
`tortoise/backends/base/schema_generator.py`, with theorems settling the
frozen specification claims about the filter algebra, query-modifier
algebra, join resolution, identifier generation and schema ordering.

Conventions of the embedding:
* pypika `Criterion` values are modelled by the inductive `Criterion`;
  the distinguished `EmptyCriterion` is the constructor `Criterion.empty`,
  and Python truthiness of a criterion (`EmptyCriterion.__bool__` returns
  `False`, every other criterion is truthy) is the function
  `Criterion.truthy`.
* Python values appearing as filter arguments are modelled by
  `FilterValue`; external encoders (`value_encoder`, the executor's
  `_field_to_db`) are modelled symbolically as constructors, since they
  are opaque collaborators of this core.
* Exceptions are modelled by `Except` with the error type `TortoiseError`.
* Python dicts keyed by strings are modelled as association lists looked
  up with `alookup` (first match wins, as dict keys are unique).
-/

set_option maxHeartbeats 1000000

/-- A Python value used as the right-hand side of a filter, or produced by
an opaque encoder. `obj pk` models a model instance exposing a `pk`
attribute; `encoded` and `fieldToDb` symbolically model the external
`value_encoder` / `executor_class._field_to_db` collaborators. -/
inductive FilterValue where
  | none : FilterValue
  | bool : Bool → FilterValue
  | int : Int → FilterValue
  | str : String → FilterValue
  | obj : FilterValue → FilterValue
  | encoded : String → FilterValue → FilterValue
  | fieldToDb : String → FilterValue → FilterValue
deriving DecidableEq

/-- pypika criteria as used by `query_utils.py`.  `empty` is
`EmptyCriterion`; `op operator table column value` is
`operator(table[column], value)`; `colEq t1 c1 t2 c2` is the column
equality `t1.c1 == t2.c2` used for join conditions; `termOp` is an
operator applied to a resolved annotation term; `and`/`or`/`not` are the
pypika combinators (`&`, `|`, `.negate()`). -/
inductive Criterion where
  | empty : Criterion
  | op : String → String → String → FilterValue → Criterion
  | colEq : String → String → String → String → Criterion
  | termOp : String → String → FilterValue → Criterion
  | and : Criterion → Criterion → Criterion
  | or : Criterion → Criterion → Criterion
  | not : Criterion → Criterion
deriving DecidableEq

namespace Criterion

/-- Python truthiness of a criterion: `EmptyCriterion.__bool__` is
`False`; every other criterion object is truthy. -/
def truthy : Criterion → Bool
  | .empty => false
  | _ => true

/-- `left & right` in Python: `EmptyCriterion.__and__` returns `other`
when `other` is truthy and `self` otherwise; on any other criterion
pypika builds the conjunction node. -/
def pyAnd (l r : Criterion) : Criterion :=
  match l with
  | .empty => if r.truthy then r else .empty
  | _ => .and l r

/-- `left | right` in Python: `EmptyCriterion.__or__` returns `other`
when `other` is truthy and `self` otherwise; on any other criterion
pypika builds the disjunction node. -/
def pyOr (l r : Criterion) : Criterion :=
  match l with
  | .empty => if r.truthy then r else .empty
  | _ => .or l r

/-- `criterion.negate()` in pypika: wraps in a NOT node. -/
def negate (c : Criterion) : Criterion := .not c

end Criterion

/-- `_and` from `query_utils.py`:
`if left and not right: return left` else `left & right`. -/
def critAnd (l r : Criterion) : Criterion :=
  if l.truthy ∧ ¬ r.truthy then l else Criterion.pyAnd l r

/-- `_or` from `query_utils.py`:
`if left and not right: return left` else `left | right`. -/
def critOr (l r : Criterion) : Criterion :=
  if l.truthy ∧ ¬ r.truthy then l else Criterion.pyOr l r

/-- Python `a or b` on two criteria: `a` when truthy, else `b`. -/
def critPyOrElse (l r : Criterion) : Criterion :=
  if l.truthy then l else r

/-- A join step: the table to join paired with the join condition. -/
abbrev Join := String × Criterion

/-- `QueryModifier` from `query_utils.py`: row predicate, ordered join
list and having-predicate.  The `None` defaults of the constructor are
the `empty` criterion and the empty join list. -/
structure QueryModifier where
  where_criterion : Criterion
  joins : List Join
  having_criterion : Criterion
deriving DecidableEq

namespace QueryModifier

/-- `QueryModifier()` with all defaults: the empty modifier. -/
def emptyQM : QueryModifier := ⟨.empty, [], .empty⟩

/-- `QueryModifier.__and__`. -/
def qmAnd (a b : QueryModifier) : QueryModifier :=
  ⟨critAnd a.where_criterion b.where_criterion,
   a.joins ++ b.joins,
   critAnd a.having_criterion b.having_criterion⟩

/-- `QueryModifier.__or__`. -/
def qmOr (a b : QueryModifier) : QueryModifier :=
  if a.having_criterion.truthy ∨ b.having_criterion.truthy then
    ⟨.empty, a.joins ++ b.joins,
     critOr (critAnd a.where_criterion a.having_criterion)
            (critAnd b.where_criterion b.having_criterion)⟩
  else if a.where_criterion.truthy ∧ b.where_criterion.truthy then
    ⟨Criterion.pyOr a.where_criterion b.where_criterion,
     a.joins ++ b.joins, .empty⟩
  else
    ⟨critPyOrElse a.where_criterion b.where_criterion,
     a.joins ++ b.joins, .empty⟩

/-- `QueryModifier.__invert__`. -/
def qmNot (a : QueryModifier) : QueryModifier :=
  if ¬ a.where_criterion.truthy ∧ ¬ a.having_criterion.truthy then
    ⟨.empty, a.joins, .empty⟩
  else if a.having_criterion.truthy then
    ⟨.empty, a.joins,
     (critAnd a.where_criterion a.having_criterion).negate⟩
  else
    ⟨a.where_criterion.negate, a.joins, .empty⟩

end QueryModifier

open QueryModifier

section ModifierAlgebra

/-- `critAnd x empty = x` for every criterion. -/
theorem critAnd_empty_right (x : Criterion) : critAnd x .empty = x := by
  cases x <;> simp [critAnd, Criterion.truthy, Criterion.pyAnd]

/-- `critOr x empty = x` for every criterion. -/
theorem critOr_empty_right (x : Criterion) : critOr x .empty = x := by
  cases x <;> simp [critOr, Criterion.truthy, Criterion.pyOr]

/-- `critAnd empty x = x` for every criterion. -/
theorem critAnd_empty_left (x : Criterion) : critAnd .empty x = x := by
  cases x <;> simp [critAnd, Criterion.truthy, Criterion.pyAnd]

/-- C1 counterexample: for the modifier `M₀` carrying both a non-empty row
predicate and a non-empty having-predicate, `OR(M₀, empty)` differs from
`M₀` (the code demotes the row predicate into the having slot), so the
claimed unconditional `OR(M, empty) == M` identity is false. -/
theorem qmOr_empty_not_identity :
    qmOr ⟨.op "eq" "t" "a" (.int 1), [], .op "gt" "t" "b" (.int 2)⟩ emptyQM
      ≠ ⟨.op "eq" "t" "a" (.int 1), [], .op "gt" "t" "b" (.int 2)⟩ := by
  decide

/-- C1 (amended): `AND(M, empty) == M` for every modifier `M`, and
`NOT(empty) == empty`; `OR(M, empty) == M` holds exactly when `M`'s row
predicate or having-predicate is empty, and when both are non-empty
`OR(M, empty)` instead has an empty row predicate, `M`'s joins, and
having-predicate `M.predicate AND M.having`. -/
theorem empty_identity_laws :
    (∀ M : QueryModifier, qmAnd M emptyQM = M) ∧
    (qmNot emptyQM = emptyQM) ∧
    (∀ M : QueryModifier,
      ¬ M.where_criterion.truthy ∨ ¬ M.having_criterion.truthy →
        qmOr M emptyQM = M) ∧
    (∀ M : QueryModifier,
      M.where_criterion.truthy → M.having_criterion.truthy →
        qmOr M emptyQM =
          ⟨.empty, M.joins, .and M.where_criterion M.having_criterion⟩) := by
  refine ⟨?_, by decide, ?_, ?_⟩
  · intro M
    cases M with
    | mk w j h =>
      simp [qmAnd, emptyQM, critAnd_empty_right]
  · intro M hM
    cases M with
    | mk w j h =>
      simp only [QueryModifier.mk.injEq] at *
      cases hw : w.truthy <;> cases hh : h.truthy <;>
        simp_all [qmOr, emptyQM, Criterion.truthy, critAnd_empty_right,
          critOr_empty_right, critAnd_empty_left, critPyOrElse] <;>
        cases w <;> cases h <;> simp_all [Criterion.truthy, critOr, critAnd,
          Criterion.pyOr, Criterion.pyAnd, critPyOrElse]
  · intro M hw hh
    cases M with
    | mk w j h =>
      simp only at hw hh
      cases w <;> cases h <;>
        simp_all [qmOr, emptyQM, Criterion.truthy, critAnd, critOr,
          Criterion.pyAnd, Criterion.pyOr]

/-- Witness for `empty_identity_laws` at a concrete modifier. -/
theorem empty_identity_laws_witness :
    qmOr ⟨.op "eq" "t" "a" (.int 1), [], .empty⟩ emptyQM
      = ⟨.op "eq" "t" "a" (.int 1), [], .empty⟩ ∧
    qmOr ⟨.op "eq" "t" "a" (.int 1), [], .op "gt" "t" "b" (.int 2)⟩ emptyQM
      = ⟨.empty, [],
          .and (.op "eq" "t" "a" (.int 1)) (.op "gt" "t" "b" (.int 2))⟩ :=
  ⟨empty_identity_laws.2.2.1 _ (by decide),
   empty_identity_laws.2.2.2 _ (by decide) (by decide)⟩

/-- C2: whenever either operand of `OR` carries a non-empty
having-predicate, the result has an empty row predicate, the concatenated
joins, and having-predicate
`_or(_and(A.where, A.having), _and(B.where, B.having))`
(the `_and`/`_or` folds apply the empty-operand identity). -/
theorem qmOr_having_collapse (A B : QueryModifier)
    (h : A.having_criterion.truthy ∨ B.having_criterion.truthy) :
    qmOr A B =
      ⟨.empty, A.joins ++ B.joins,
       critOr (critAnd A.where_criterion A.having_criterion)
              (critAnd B.where_criterion B.having_criterion)⟩ := by
  simp [qmOr, h]

/-- Witness for `qmOr_having_collapse` at concrete modifiers. -/
theorem qmOr_having_collapse_witness :
    qmOr ⟨.op "eq" "t" "a" (.int 1), [("j", .colEq "t" "id" "j" "tid")],
          .termOp "gte" "cnt" (.int 3)⟩
        ⟨.op "eq" "t" "b" (.int 2), [], .empty⟩
      = ⟨.empty, [("j", .colEq "t" "id" "j" "tid")],
         critOr (critAnd (.op "eq" "t" "a" (.int 1))
                         (.termOp "gte" "cnt" (.int 3)))
                (critAnd (.op "eq" "t" "b" (.int 2)) .empty)⟩ :=
  qmOr_having_collapse _ _ (by decide)

end ModifierAlgebra

/-!
## Identifier generation (`BaseSchemaGenerator._make_hash`,
`_generate_index_name`, `_generate_fk_name`)

`hashlib.sha256(...).hexdigest()` is reproduced by an executable SHA-256
over the UTF-8 bytes of the input string.  Python slicing `s[:n]` on
strings is character-based and is modelled by `pySlice`.
-/

/-- Truncate to a 32-bit word. -/
def w32 (n : Nat) : Nat := n % 4294967296

/-- 32-bit right rotation. -/
def rotr32 (x n : Nat) : Nat := w32 ((x >>> n) ||| (x <<< (32 - n)))

/-- SHA-256 round constants. -/
def shaK : List Nat :=
  [1116352408, 1899447441, 3049323471, 3921009573,
   961987163, 1508970993, 2453635748, 2870763221,
   3624381080, 310598401, 607225278, 1426881987,
   1925078388, 2162078206, 2614888103, 3248222580,
   3835390401, 4022224774, 264347078, 604807628,
   770255983, 1249150122, 1555081692, 1996064986,
   2554220882, 2821834349, 2952996808, 3210313671,
   3336571891, 3584528711, 113926993, 338241895,
   666307205, 773529912, 1294757372, 1396182291,
   1695183700, 1986661051, 2177026350, 2456956037,
   2730485921, 2820302411, 3259730800, 3345764771,
   3516065817, 3600352804, 4094571909, 275423344,
   430227734, 506948616, 659060556, 883997877,
   958139571, 1322822218, 1537002063, 1747873779,
   1955562222, 2024104815, 2227730452, 2361852424,
   2428436474, 2756734187, 3204031479, 3329325298]

/-- SHA-256 big sigma 0. -/
def bSig0 (x : Nat) : Nat := rotr32 x 2 ^^^ rotr32 x 13 ^^^ rotr32 x 22

/-- SHA-256 big sigma 1. -/
def bSig1 (x : Nat) : Nat := rotr32 x 6 ^^^ rotr32 x 11 ^^^ rotr32 x 25

/-- SHA-256 small sigma 0. -/
def sSig0 (x : Nat) : Nat := rotr32 x 7 ^^^ rotr32 x 18 ^^^ (x >>> 3)

/-- SHA-256 small sigma 1. -/
def sSig1 (x : Nat) : Nat := rotr32 x 17 ^^^ rotr32 x 19 ^^^ (x >>> 10)

/-- SHA-256 choice function. -/
def shaCh (x y z : Nat) : Nat := (x &&& y) ^^^ ((x ^^^ 0xffffffff) &&& z)

/-- SHA-256 majority function. -/
def shaMaj (x y z : Nat) : Nat := (x &&& y) ^^^ (x &&& z) ^^^ (y &&& z)

/-- The eight 32-bit words of a SHA-256 state. -/
structure Sha256State where
  a : Nat
  b : Nat
  c : Nat
  d : Nat
  e : Nat
  f : Nat
  g : Nat
  h : Nat
deriving DecidableEq

/-- SHA-256 initial hash value. -/
def shaInit : Sha256State :=
  ⟨1779033703, 3144134277, 1013904242, 2773480762,
   1359893119, 2600822924, 528734635, 1541459225⟩

/-- One step of the message-schedule extension: append word
`σ1(w[i-2]) + w[i-7] + σ0(w[i-15]) + w[i-16]`. -/
def shaExtendStep (ws : List Nat) : List Nat :=
  ws ++ [w32 (sSig1 (ws.getD (ws.length - 2) 0) + ws.getD (ws.length - 7) 0 +
              sSig0 (ws.getD (ws.length - 15) 0) + ws.getD (ws.length - 16) 0)]

/-- Extend a 16-word chunk to the 64-word message schedule. -/
def shaSchedule (ws : List Nat) : List Nat :=
  (List.range 48).foldl (fun acc _ => shaExtendStep acc) ws

/-- One SHA-256 compression round. -/
def shaRound (st : Sha256State) (k w : Nat) : Sha256State :=
  let t1 := w32 (st.h + bSig1 st.e + shaCh st.e st.f st.g + k + w)
  let t2 := w32 (bSig0 st.a + shaMaj st.a st.b st.c)
  ⟨w32 (t1 + t2), st.a, st.b, st.c, w32 (st.d + t1), st.e, st.f, st.g⟩

/-- Compress one 16-word chunk into the running state. -/
def shaCompress (hs : Sha256State) (chunk : List Nat) : Sha256State :=
  let st := (shaK.zip (shaSchedule chunk)).foldl
    (fun st kw => shaRound st kw.1 kw.2) hs
  ⟨w32 (hs.a + st.a), w32 (hs.b + st.b), w32 (hs.c + st.c), w32 (hs.d + st.d),
   w32 (hs.e + st.e), w32 (hs.f + st.f), w32 (hs.g + st.g), w32 (hs.h + st.h)⟩

/-- Big-endian 8-byte encoding of a bit length. -/
def shaLenBytes (bits : Nat) : List Nat :=
  [(bits >>> 56) % 256, (bits >>> 48) % 256, (bits >>> 40) % 256,
   (bits >>> 32) % 256, (bits >>> 24) % 256, (bits >>> 16) % 256,
   (bits >>> 8) % 256, bits % 256]

/-- SHA-256 padding: append `0x80`, zero bytes to 56 mod 64, then the
64-bit big-endian message bit length. -/
def shaPad (msg : List Nat) : List Nat :=
  let padLen := (64 + 56 - (msg.length + 1) % 64) % 64
  msg ++ [0x80] ++ List.replicate padLen 0 ++ shaLenBytes (msg.length * 8)

/-- Group bytes into big-endian 32-bit words. -/
def bytesToWords : List Nat → List Nat
  | b0 :: b1 :: b2 :: b3 :: rest =>
      ((b0 <<< 24) ||| (b1 <<< 16) ||| (b2 <<< 8) ||| b3) :: bytesToWords rest
  | _ => []

/-- Split a padded byte sequence into 16-word chunks. -/
def shaChunks (l : List Nat) : List (List Nat) :=
  if h : l = [] then []
  else
    bytesToWords (l.take 64) :: shaChunks (l.drop 64)
termination_by l.length
decreasing_by
  simp only [List.length_drop]
  exact Nat.sub_lt (List.length_pos.mpr h) (by omega)

/-- SHA-256 of a byte sequence, as a final state. -/
def sha256Bytes (msg : List Nat) : Sha256State :=
  (shaChunks (shaPad msg)).foldl shaCompress shaInit

/-- One lowercase hexadecimal digit. -/
def hexChar (n : Nat) : Char :=
  if n < 10 then Char.ofNat (48 + n) else Char.ofNat (87 + n)

/-- Eight-hex-digit rendering of a 32-bit word. -/
def toHex8 (w : Nat) : String :=
  String.mk ((List.range 8).map (fun i => hexChar ((w >>> ((7 - i) * 4)) % 16)))

/-- `hashlib.sha256(s.encode("utf-8")).hexdigest()`. -/
def sha256hex (s : String) : String :=
  let st := sha256Bytes (s.toUTF8.toList.map (fun b => b.toNat))
  toHex8 st.a ++ toHex8 st.b ++ toHex8 st.c ++ toHex8 st.d ++
  toHex8 st.e ++ toHex8 st.f ++ toHex8 st.g ++ toHex8 st.h

/-- Python character slicing `s[:n]`. -/
def pySlice (s : String) (n : Nat) : String := String.mk (s.data.take n)

/-- `BaseSchemaGenerator._make_hash(*args, length=length)`:
`sha256(";".join(args)).hexdigest()[:length]`. -/
def makeHash (args : List String) (length : Nat) : String :=
  pySlice (sha256hex (String.intercalate ";" args)) length

/-- `BaseSchemaGenerator._generate_index_name(prefix, model, field_names)`:
`"{prefix}_{table[:11]}_{fields[0][:7]}_{hash6}"`.  `field_names[0]` fails
with `IndexError` on an empty list, modelled by `none`. -/
def generateIndexName (pfx tableName : String) (fieldNames : List String) :
    Option String :=
  match fieldNames with
  | [] => Option.none
  | f0 :: _ =>
      some (pfx ++ "_" ++ pySlice tableName 11 ++ "_" ++ pySlice f0 7 ++ "_" ++
            makeHash (tableName :: fieldNames) 6)

/-- `BaseSchemaGenerator._generate_fk_name(from_table, from_field, to_table,
to_field)`: `"fk_{from[:8]}_{to[:8]}_{hash8}"`. -/
def generateFkName (fromTable fromField toTable toField : String) : String :=
  "fk_" ++ pySlice fromTable 8 ++ "_" ++ pySlice toTable 8 ++ "_" ++
  makeHash [fromTable, fromField, toTable, toField] 8

section NameLength

/-- A Python slice `s[:n]` has at most `n` characters. -/
theorem pySlice_length_le (s : String) (n : Nat) : (pySlice s n).length ≤ n := by
  simp only [pySlice, String.length]
  exact le_trans (le_of_eq (List.length_take _ _)) (min_le_left _ _)

/-- A generated hash fragment has at most `length` characters. -/
theorem makeHash_length_le (args : List String) (n : Nat) :
    (makeHash args n).length ≤ n :=
  pySlice_length_le _ _

/-- C6: every identifier generated with the index prefixes `idx`/`uid` is
at most 30 characters, every generated foreign-key identifier is at most
30 characters, and generation is deterministic (equal inputs produce equal
names). -/
theorem generated_names_bounded :
    (∀ pfx tableName fieldNames nm,
        (pfx = "idx" ∨ pfx = "uid") →
        generateIndexName pfx tableName fieldNames = some nm →
        nm.length ≤ 30) ∧
    (∀ a b c d, (generateFkName a b c d).length ≤ 30) ∧
    (∀ p₁ p₂ t₁ t₂ f₁ f₂, p₁ = p₂ → t₁ = t₂ → f₁ = f₂ →
        generateIndexName p₁ t₁ f₁ = generateIndexName p₂ t₂ f₂) ∧
    (∀ a₁ a₂ b₁ b₂ c₁ c₂ d₁ d₂, a₁ = a₂ → b₁ = b₂ → c₁ = c₂ → d₁ = d₂ →
        generateFkName a₁ b₁ c₁ d₁ = generateFkName a₂ b₂ c₂ d₂) := by
  refine ⟨?_, ?_, ?_, ?_⟩
  · intro pfx tableName fieldNames nm hpfx hgen
    match fieldNames with
    | [] => simp [generateIndexName] at hgen
    | f0 :: rest =>
      simp only [generateIndexName, Option.some.injEq] at hgen
      subst hgen
      have hp : pfx.length = 3 := by
        rcases hpfx with h | h <;> subst h <;> decide
      simp only [String.length_append]
      have h1 := pySlice_length_le tableName 11
      have h2 := pySlice_length_le f0 7
      have h3 := makeHash_length_le (tableName :: f0 :: rest) 6
      have hu : ("_" : String).length = 1 := by decide
      omega
  · intro a b c d
    simp only [generateFkName, String.length_append]
    have h1 := pySlice_length_le a 8
    have h2 := pySlice_length_le c 8
    have h3 := makeHash_length_le [a, b, c, d] 8
    have hfk : ("fk_" : String).length = 3 := by decide
    have hu : ("_" : String).length = 1 := by decide
    omega
  · intro p₁ p₂ t₁ t₂ f₁ f₂ hp ht hf
    subst hp; subst ht; subst hf; rfl
  · intro a₁ a₂ b₁ b₂ c₁ c₂ d₁ d₂ ha hb hc hd
    subst ha; subst hb; subst hc; subst hd; rfl

/-- Witness for `generated_names_bounded` at concrete inputs. -/
theorem generated_names_bounded_witness :
    ∃ nm, generateIndexName "idx" "sometable" ["somefield"] = some nm ∧
      nm.length ≤ 30 ∧
      (generateFkName "book" "author_id" "author" "id").length ≤ 30 :=
  ⟨_, rfl,
   generated_names_bounded.1 "idx" "sometable" ["somefield"] _
     (Or.inl rfl) rfl,
   generated_names_bounded.2.1 "book" "author_id" "author" "id"⟩

end NameLength

/-!
## Errors

`tortoise.exceptions` itself is not part of the sources under
verification; the classes the sources raise (`OperationalError`,
`FieldError`, `ConfigurationError`) become constructors, along with the
Python built-ins (`KeyError`, `AttributeError`) raised by failed dict /
attribute lookups.  The spec additionally names a `ValidationError` class;
modelled from the spec, it is included as a constructor so claims about it
can be stated.  `outOfFuel` is an artifact of the embedding: the
non-structural recursion of `Q.resolve` is bounded by an explicit fuel
parameter, and theorems quantify over fuel or use ample concrete fuel. -/
inductive TortoiseError where
  | operationalError : String → TortoiseError
  | fieldError : String → TortoiseError
  | configurationError : String → TortoiseError
  | validationError : String → TortoiseError
  | keyError : String → TortoiseError
  | attributeError : String → TortoiseError
  | outOfFuel : TortoiseError
deriving DecidableEq

/-!
## Schema assembly (`BaseSchemaGenerator.get_create_schema_sql`)

A `TablePlan` is the dict produced per model by `_get_table_sql`:
table name, full CREATE statement, set of referenced table names and the
model's many-to-many CREATE statements.  `get_create_schema_sql` is
modelled from the point where these plans exist (its loop over
`tables_to_create`); the `created_tables` set of names is a list with
set-insert. -/
structure TablePlan where
  table : String
  table_creation_string : String
  references : List String
  m2m_tables : List String
deriving DecidableEq

/-- `t["references"].issubset(created_tables | {t["table"]})`. -/
def isPlaceable (created : List String) (t : TablePlan) : Bool :=
  t.references.all (fun r => decide (r ∈ created ∨ r = t.table))

/-- `created_tables.add(name)` (Python set insertion). -/
def setInsert (created : List String) (x : String) : List String :=
  if x ∈ created then created else x :: created

/-- The `while True` placement loop of `get_create_schema_sql`: break when
the set of created names has `count` elements, otherwise place the first
plan whose references are a subset of the created names plus itself, or
fail with the cyclic-reference `ConfigurationError`. -/
def orderTables (count : Nat) (created : List String)
    (remaining : List TablePlan) : Except TortoiseError (List TablePlan) :=
  if created.length = count then .ok []
  else
    match hfind : remaining.find? (isPlaceable created) with
    | Option.none =>
        .error (.configurationError "Can't create schema due to cyclic fk references")
    | some t =>
        match orderTables count (setInsert created t.table) (remaining.erase t) with
        | .error e => .error e
        | .ok rest => .ok (t :: rest)
termination_by remaining.length
decreasing_by
  have hmem : t ∈ remaining := List.mem_of_find?_eq_some hfind
  have := List.length_erase_of_mem hmem
  have hpos : 0 < remaining.length := List.length_pos.mpr (by
    intro hnil; subst hnil; simp at hmem)
  omega

/-- `get_create_schema_sql`, from the point where the per-model plans are
built: place all tables, then emit the table statements in placement
order followed by all many-to-many statements in discovery order. -/
def getCreateSchemaSql (plans : List TablePlan) : Except TortoiseError String :=
  match orderTables plans.length [] plans with
  | .error e => .error e
  | .ok ordered =>
      .ok (String.intercalate "\n"
        (ordered.map (fun t => t.table_creation_string) ++
         (ordered.map (fun t => t.m2m_tables)).flatten))

/-- An ordering of plans respects dependencies when, scanning left to
right, every plan's references other than itself name already-seen
tables (`created` accumulates the names seen so far). -/
def respectsDeps : List String → List TablePlan → Prop
  | _, [] => True
  | created, p :: rest =>
      (∀ r ∈ p.references, r ≠ p.table → r ∈ created) ∧
      respectsDeps (p.table :: created) rest

section SchemaOrdering

/-- Unfolding of the subset test behind `isPlaceable`. -/
theorem isPlaceable_iff (created : List String) (t : TablePlan) :
    isPlaceable created t = true ↔
      ∀ r ∈ t.references, r ∈ created ∨ r = t.table := by
  simp [isPlaceable, List.all_eq_true]

/-- A nonempty list of plans has a member whose table name has minimal
rank. -/
theorem exists_min_rank (rank : String → Nat) :
    ∀ l : List TablePlan, l ≠ [] →
      ∃ t ∈ l, ∀ u ∈ l, rank t.table ≤ rank u.table := by
  intro l
  induction l with
  | nil => intro h; exact absurd rfl h
  | cons a rest ih =>
    intro _
    rcases eq_or_ne rest [] with hr | hr
    · subst hr
      refine ⟨a, by simp, ?_⟩
      intro u hu
      simp at hu
      subst hu
      exact le_refl _
    · obtain ⟨t, htmem, htmin⟩ := ih hr
      by_cases hc : rank a.table ≤ rank t.table
      · refine ⟨a, by simp, ?_⟩
        intro u hu
        rcases List.mem_cons.mp hu with rfl | hu
        · exact le_refl _
        · exact le_trans hc (htmin u hu)
      · refine ⟨t, List.mem_cons_of_mem _ htmem, ?_⟩
        intro u hu
        rcases List.mem_cons.mp hu with rfl | hu
        · exact le_of_not_le hc
        · exact htmin u hu

/-- Progress: while the remaining plans are nonempty, reference-closed
relative to the created set, and rank-acyclic, some remaining plan is
placeable. -/
theorem orderTables_progress (created : List String)
    (remaining : List TablePlan) (rank : String → Nat)
    (hne : remaining ≠ [])
    (hclosed : ∀ p ∈ remaining, ∀ r ∈ p.references,
        r ∈ created ∨ r ∈ remaining.map (fun t => t.table))
    (hrank : ∀ p ∈ remaining, ∀ r ∈ p.references,
        r ≠ p.table → rank r < rank p.table) :
    ∃ t ∈ remaining, isPlaceable created t = true := by
  obtain ⟨t, htmem, htmin⟩ := exists_min_rank rank remaining hne
  refine ⟨t, htmem, (isPlaceable_iff _ _).mpr ?_⟩
  intro r hr
  by_cases hrt : r = t.table
  · exact Or.inr hrt
  · left
    rcases hclosed t htmem r hr with hc | hmap
    · exact hc
    · exfalso
      obtain ⟨u, humem, huq⟩ := List.mem_map.mp hmap
      have h1 : rank r < rank t.table := hrank t htmem r hr hrt
      have h2 : rank t.table ≤ rank u.table := htmin u humem
      rw [huq] at h2
      omega

/-- Shared bookkeeping for one placement step: the placed table name is
new, insertion is a cons, and the no-duplicate invariant survives. -/
theorem orderTables_step (created : List String)
    (remaining : List TablePlan) (t : TablePlan) (htmem : t ∈ remaining)
    (hnodup : (created ++ remaining.map (fun t => t.table)).Nodup) :
    t.table ∉ created ∧
    setInsert created t.table = t.table :: created ∧
    (setInsert created t.table ++
      (remaining.erase t).map (fun t => t.table)).Nodup := by
  obtain ⟨l₁, l₂, htl₁, hdecomp, herase⟩ := List.exists_erase_eq htmem
  have httable_mem : t.table ∈ remaining.map (fun t => t.table) :=
    List.mem_map.mpr ⟨t, htmem, rfl⟩
  have hnotc : t.table ∉ created := by
    intro hmem
    exact (List.disjoint_of_nodup_append hnodup) hmem httable_mem
  have hsetins : setInsert created t.table = t.table :: created := by
    simp [setInsert, hnotc]
  refine ⟨hnotc, hsetins, ?_⟩
  have hmapdecomp : remaining.map (fun t => t.table)
      = l₁.map (fun t => t.table) ++ t.table :: l₂.map (fun t => t.table) := by
    rw [hdecomp]; simp
  have hmaperase : (remaining.erase t).map (fun t => t.table)
      = l₁.map (fun t => t.table) ++ l₂.map (fun t => t.table) := by
    rw [herase]; simp
  rw [hsetins, hmaperase]
  rw [hmapdecomp] at hnodup
  have h1 : List.Perm
      ((created ++ l₁.map (fun t => t.table)) ++
        t.table :: l₂.map (fun t => t.table))
      (t.table :: ((created ++ l₁.map (fun t => t.table)) ++
        l₂.map (fun t => t.table))) := List.perm_middle
  have h2 := h1.nodup (by simpa [List.append_assoc] using hnodup)
  simpa [List.append_assoc] using h2

/-- Success of the placement loop on a rank-acyclic, reference-closed,
duplicate-free plan set: it emits a dependency-respecting permutation of
the remaining plans. -/
theorem orderTables_ok_of_acyclic (plans : List TablePlan)
    (rank : String → Nat)
    (hrank : ∀ p ∈ plans, ∀ r ∈ p.references,
        r ≠ p.table → rank r < rank p.table) :
    ∀ (n : Nat) (created : List String) (remaining : List TablePlan),
      remaining.length = n →
      (∀ p ∈ remaining, p ∈ plans) →
      (created ++ remaining.map (fun t => t.table)).Nodup →
      created.length + remaining.length = plans.length →
      (∀ p ∈ remaining, ∀ r ∈ p.references,
          r ∈ created ∨ r ∈ remaining.map (fun t => t.table)) →
      ∃ l, orderTables plans.length created remaining = .ok l ∧
        respectsDeps created l ∧ List.Perm l remaining := by
  intro n
  induction n with
  | zero =>
    intro created remaining hlen hsub hnodup hcount hclosed
    have hrem : remaining = [] := List.length_eq_zero.mp hlen
    subst hrem
    refine ⟨[], ?_, trivial, List.Perm.refl _⟩
    rw [orderTables]
    have hc2 : created.length = plans.length := by
      simpa using hcount
    simp [hc2]
  | succ n ih =>
    intro created remaining hlen hsub hnodup hcount hclosed
    have hne : remaining ≠ [] := by intro h; subst h; simp at hlen
    have hcne : created.length ≠ plans.length := by omega
    obtain ⟨t, htmem, htplace⟩ :=
      orderTables_progress created remaining rank hne hclosed
        (fun p hp => hrank p (hsub p hp))
    have hfind : (remaining.find? (isPlaceable created)).isSome := by
      rw [List.find?_isSome]
      exact ⟨t, htmem, htplace⟩
    obtain ⟨t₀, hfind_eq⟩ := Option.isSome_iff_exists.mp hfind
    have ht₀mem : t₀ ∈ remaining := List.mem_of_find?_eq_some hfind_eq
    have ht₀place : isPlaceable created t₀ = true := List.find?_some hfind_eq
    obtain ⟨hnotc, hsetins, hnodup'⟩ :=
      orderTables_step created remaining t₀ ht₀mem hnodup
    have hlen_erase : (remaining.erase t₀).length = n := by
      have := List.length_erase_of_mem ht₀mem; omega
    have hcount' : (setInsert created t₀.table).length +
        (remaining.erase t₀).length = plans.length := by
      rw [hsetins]
      simp only [List.length_cons]
      omega
    have hsub' : ∀ p ∈ remaining.erase t₀, p ∈ plans :=
      fun p hp => hsub p (List.mem_of_mem_erase hp)
    have hclosed' : ∀ p ∈ remaining.erase t₀, ∀ r ∈ p.references,
        r ∈ setInsert created t₀.table ∨
        r ∈ (remaining.erase t₀).map (fun t => t.table) := by
      intro p hp r hr
      rcases hclosed p (List.mem_of_mem_erase hp) r hr with hc | hm
      · exact Or.inl (by rw [hsetins]; exact List.mem_cons_of_mem _ hc)
      · by_cases hrt : r = t₀.table
        · exact Or.inl (by rw [hsetins, hrt]; exact List.mem_cons_self _ _)
        · right
          obtain ⟨l₁, l₂, _, hdecomp, herase⟩ := List.exists_erase_eq ht₀mem
          rw [herase]
          rw [hdecomp] at hm
          simp only [List.map_append, List.map_cons, List.mem_append,
            List.mem_cons] at hm ⊢
          rcases hm with h1 | h2 | h3
          · exact Or.inl h1
          · exact absurd h2 hrt
          · exact Or.inr h3
    obtain ⟨l, hl, hdeps, hlperm⟩ :=
      ih (setInsert created t₀.table) (remaining.erase t₀)
        hlen_erase hsub' hnodup' hcount' hclosed'
    refine ⟨t₀ :: l, ?_, ?_, ?_⟩
    · rw [orderTables, if_neg hcne]
      split
      · next heq => rw [hfind_eq] at heq; exact Option.noConfusion heq
      · next t' heq =>
          rw [hfind_eq] at heq
          have : t₀ = t' := by injection heq
          subst this
          rw [hl]
    · refine ⟨?_, ?_⟩
      · intro r hr hrneq
        rcases (isPlaceable_iff _ _).mp ht₀place r hr with h | h
        · exact h
        · exact absurd h hrneq
      · rw [← hsetins]
        exact hdeps
    · exact List.Perm.trans (List.Perm.cons t₀ hlperm)
        (List.perm_cons_erase ht₀mem).symm

/-- Failure of the placement loop in the presence of a cycle witness: a
nonempty set `S` of remaining plans each of which references the table of
another member of `S`.  No member of `S` can ever be placed, so the loop
ends in the cyclic-reference error. -/
theorem orderTables_error_of_cycle (plans : List TablePlan) :
    ∀ (n : Nat) (created : List String) (remaining : List TablePlan)
      (S : List TablePlan),
      remaining.length = n →
      S ≠ [] →
      (∀ s ∈ S, s ∈ remaining) →
      (∀ p ∈ S, ∃ q ∈ S, q.table ∈ p.references ∧ q.table ≠ p.table) →
      (∀ s ∈ S, s.table ∉ created) →
      (created ++ remaining.map (fun t => t.table)).Nodup →
      created.length + remaining.length = plans.length →
      orderTables plans.length created remaining =
        .error (.configurationError
          "Can't create schema due to cyclic fk references") := by
  intro n
  induction n with
  | zero =>
    intro created remaining S hlen hSne hSsub hScyc hScr hnodup hcount
    have hrem : remaining = [] := List.length_eq_zero.mp hlen
    subst hrem
    obtain ⟨s, hs⟩ := List.exists_mem_of_ne_nil S hSne
    exact absurd (hSsub s hs) (by simp)
  | succ n ih =>
    intro created remaining S hlen hSne hSsub hScyc hScr hnodup hcount
    have hcne : created.length ≠ plans.length := by omega
    rw [orderTables, if_neg hcne]
    split
    · rfl
    · next t heq =>
        have htmem : t ∈ remaining := List.mem_of_find?_eq_some heq
        have htplace : isPlaceable created t = true := List.find?_some heq
        have htS : t ∉ S := by
          intro htS
          obtain ⟨q, hqS, hqref, hqne⟩ := hScyc t htS
          rcases (isPlaceable_iff _ _).mp htplace q.table hqref with h | h
          · exact hScr q hqS h
          · exact hqne h
        obtain ⟨hnotc, hsetins, hnodup'⟩ :=
          orderTables_step created remaining t htmem hnodup
        have hlen_erase : (remaining.erase t).length = n := by
          have := List.length_erase_of_mem htmem; omega
        have hcount' : (setInsert created t.table).length +
            (remaining.erase t).length = plans.length := by
          rw [hsetins]
          simp only [List.length_cons]
          omega
        have hmapnodup : (remaining.map (fun t => t.table)).Nodup :=
          hnodup.of_append_right
        have hSsub' : ∀ s ∈ S, s ∈ remaining.erase t := by
          intro s hs
          have hst : s ≠ t := fun h => htS (h ▸ hs)
          exact (List.mem_erase_of_ne hst).mpr (hSsub s hs)
        have hScr' : ∀ s ∈ S, s.table ∉ setInsert created t.table := by
          intro s hs
          rw [hsetins]
          intro hmem
          rcases List.mem_cons.mp hmem with hst | hsc
          · have hst' : s = t :=
              List.inj_on_of_nodup_map hmapnodup (hSsub s hs) htmem hst
            exact htS (hst' ▸ hs)
          · exact hScr s hs hsc
        have hrec := ih (setInsert created t.table) (remaining.erase t) S
          hlen_erase hSne hSsub' hScyc hScr' hnodup' hcount'
        rw [hrec]

/-- C3: given the per-model plans of a model set with duplicate-free
table names whose references stay inside the set, (a) if the
foreign-key reference graph between distinct tables is acyclic
(witnessed by a rank function that strictly decreases along every
non-self reference), `get_create_schema_sql` succeeds and emits every
table's CREATE statement after the CREATE statements of all distinct
tables it references, with all many-to-many statements concatenated
after all table statements; (b) if some nonempty subset of the plans is
cyclic (every member references the table of another member — the
finite-graph criterion for containing a cycle between distinct tables),
it fails with the cyclic-reference `ConfigurationError` and produces no
output. -/
theorem schema_ordering (plans : List TablePlan)
    (hnodup : (plans.map (fun t => t.table)).Nodup)
    (hclosed : ∀ p ∈ plans, ∀ r ∈ p.references,
        r ∈ plans.map (fun t => t.table)) :
    ((∃ rank : String → Nat, ∀ p ∈ plans, ∀ r ∈ p.references,
        r ≠ p.table → rank r < rank p.table) →
      ∃ ordered, orderTables plans.length [] plans = .ok ordered ∧
        List.Perm ordered plans ∧ respectsDeps [] ordered ∧
        getCreateSchemaSql plans = .ok (String.intercalate "\n"
          (ordered.map (fun t => t.table_creation_string) ++
           (ordered.map (fun t => t.m2m_tables)).flatten))) ∧
    (∀ S : List TablePlan, S ≠ [] → (∀ s ∈ S, s ∈ plans) →
      (∀ p ∈ S, ∃ q ∈ S, q.table ∈ p.references ∧ q.table ≠ p.table) →
      getCreateSchemaSql plans = .error (.configurationError
        "Can't create schema due to cyclic fk references")) := by
  constructor
  · rintro ⟨rank, hrank⟩
    obtain ⟨l, hl, hdeps, hlperm⟩ :=
      orderTables_ok_of_acyclic plans rank hrank plans.length [] plans rfl
        (fun p hp => hp) (by simpa using hnodup) (by simp)
        (fun p hp r hr => Or.inr (hclosed p hp r hr))
    refine ⟨l, hl, hlperm, hdeps, ?_⟩
    rw [getCreateSchemaSql, hl]
  · intro S hSne hSsub hScyc
    have herr := orderTables_error_of_cycle plans plans.length [] plans S rfl
      hSne hSsub hScyc (by simp) (by simpa using hnodup) (by simp)
    rw [getCreateSchemaSql, herr]

/-- The two-plan acyclic input used by the schema-ordering witness. -/
def witnessPlansAcyclic : List TablePlan :=
  [⟨"book", "CREATE book", ["author"], ["CREATE m2m"]⟩,
   ⟨"author", "CREATE author", [], []⟩]

/-- The two-plan cyclic input used by the schema-ordering witness. -/
def witnessPlansCyclic : List TablePlan :=
  [⟨"a", "CREATE a", ["b"], []⟩, ⟨"b", "CREATE b", ["a"], []⟩]

/-- Witness for `schema_ordering`: an `author`/`book` two-table set,
acyclic (so placement succeeds, with the many-to-many statement appended
after the table statements), and an `a`/`b` pair with mutual references
(so generation fails with the cyclic-reference error). -/
theorem schema_ordering_witness :
    (∃ ordered,
      orderTables witnessPlansAcyclic.length [] witnessPlansAcyclic =
        .ok ordered ∧
      List.Perm ordered witnessPlansAcyclic ∧
      respectsDeps [] ordered ∧
      getCreateSchemaSql witnessPlansAcyclic =
        .ok (String.intercalate "\n"
          (ordered.map (fun t => t.table_creation_string) ++
           (ordered.map (fun t => t.m2m_tables)).flatten))) ∧
    getCreateSchemaSql witnessPlansCyclic =
      .error (.configurationError
        "Can't create schema due to cyclic fk references") := by
  constructor
  · exact (schema_ordering witnessPlansAcyclic (by decide) (by decide)).1
      ⟨fun s => if s = "book" then 1 else 0, by decide⟩
  · exact (schema_ordering witnessPlansCyclic (by decide) (by decide)).2
      witnessPlansCyclic
      (by decide) (fun s hs => hs)
      (by
        intro p hp
        rcases List.mem_cons.mp hp with rfl | hp
        · exact ⟨⟨"b", "CREATE b", ["a"], []⟩, by decide, by decide, by decide⟩
        · rcases List.mem_cons.mp hp with rfl | hp
          · exact ⟨⟨"a", "CREATE a", ["b"], []⟩, by decide, by decide,
              by decide⟩
          · simp at hp)

end SchemaOrdering

/-!
## Model metadata and filter parameters (`query_utils.py`)

`model._meta` is consumed read-only; its components become `ModelMeta`.
Relation descriptors (`ManyToManyFieldInstance`, `BackwardFKRelation`,
forward references) become the tagged `RelatedField`, whose
`field_type` is the referenced model's name resolved through the `Env`
registry (the functional stand-in for Python object references). -/

/-- First-match association-list lookup, modelling Python dict lookup
(dict keys are unique). -/
def alookup {β : Type} (k : String) : List (String × β) → Option β
  | [] => Option.none
  | (k', v) :: rest => if k' = k then some v else alookup k rest

/-- The key list of an association list (dict keys, in insertion order). -/
def akeys {β : Type} (l : List (String × β)) : List String := l.map Prod.fst

/-- A relation descriptor: the `field_type` component is the name of the
referenced model, resolved through the environment. -/
inductive RelatedField where
  | manyToMany : (fieldType through backwardKey forwardKey : String) → RelatedField
  | backwardFK : (fieldType relationField : String) → RelatedField
  | forwardFK : (fieldType : String) → RelatedField
deriving DecidableEq

/-- `related_field.field_type`, as a model name. -/
def RelatedField.fieldType : RelatedField → String
  | .manyToMany ft _ _ _ => ft
  | .backwardFK ft _ => ft
  | .forwardFK ft => ft

/-- An entry of `model._meta.fields_map`: its name, its SQL source column
and, for relation fields, the relation descriptor. -/
structure FieldInfo where
  name : String
  source_field : String
  relation : Option RelatedField
deriving DecidableEq

/-- An entry of `model._meta.filters`: the param dict consumed by
`_process_filter_kwarg`.  `table` is the related table of a
relation-targeted filter (`param.get("table")`), `value_encoder` the
optional encoder, both modelled symbolically by name. -/
structure FilterParam where
  field : String
  source_field : String
  operator : String
  table : Option String
  backward_key : String
  value_encoder : Option String
deriving DecidableEq

/-- A resolved annotation (`annotation.resolve(model)["field"]`): its
symbolic term and its `is_aggregate` flag. -/
structure Annotation where
  term : String
  is_aggregate : Bool
deriving DecidableEq

/-- An entry of the custom-filter registry: the annotation it compares
and the comparison operator. -/
structure CustomFilter where
  field : String
  operator : String
deriving DecidableEq

/-- The read-only slice of `model._meta` this core consumes. -/
structure ModelMeta where
  basetable : String
  db_pk_field : String
  fields : List String
  fetch_fields : List String
  fk_fields : List String
  o2o_fields : List String
  m2m_fields : List String
  filters : List (String × FilterParam)
  fields_map : List (String × FieldInfo)
  overridden_filters : List (String × String)
deriving DecidableEq

/-- The model registry: Python object references to related models become
lookups by model name. -/
abbrev Env := List (String × ModelMeta)

/-- The scanner behind Python `key.split("__")` (the only separator the
sources split on): left-to-right, non-overlapping double-underscore
matches, character-based, with `"".split("__") == [""]`. -/
def splitDunderAux : List Char → List Char → List (List Char)
  | acc, [] => [acc.reverse]
  | acc, [c] => [(c :: acc).reverse]
  | acc, c1 :: c2 :: cs =>
      if c1 = '_' ∧ c2 = '_' then acc.reverse :: splitDunderAux [] cs
      else splitDunderAux (c1 :: acc) (c2 :: cs)

/-- Python `s.split("__")`. -/
def pySplit (s : String) (sep : String) : List String :=
  if sep = "__" then (splitDunderAux [] s.data).map String.mk else [s]

/-- Code-point lexicographic strict comparison on character lists, the
order Python uses to compare strings. -/
def charListLt : List Char → List Char → Bool
  | [], [] => false
  | [], _ :: _ => true
  | _ :: _, [] => false
  | a :: as, b :: bs =>
      if a.toNat < b.toNat then true
      else if b.toNat < a.toNat then false
      else charListLt as bs

/-- Python string less-or-equal: not strictly greater. -/
def pyStrLe (a b : String) : Bool := ! charListLt b.data a.data

/-- Insert into an ascending list, keeping it ascending. -/
def insertSorted (a : String) : List String → List String
  | [] => [a]
  | b :: rest => if pyStrLe a b then a :: b :: rest else b :: insertSorted a rest

/-- Ascending insertion sort: the order `sorted` produces. -/
def pySorted (l : List String) : List String := l.foldr insertSorted []

/-- Python `repr` of a list of strings without quote characters, as
interpolated into the `FieldError` message. -/
def pyStrListRepr (l : List String) : String :=
  "[" ++ String.intercalate ", " (l.map (fun s => "'" ++ s ++ "'")) ++ "]"

/-- Python `sorted(list(s))` for a set of strings given as the
concatenation of its sources: distinct elements in ascending order. -/
def pySortedSet (l : List String) : List String :=
  pySorted l.dedup

/-- The message of the `FieldError` raised by
`Q._get_actual_filter_params` for an unknown key:
`f"Unknown filter param '{key}'. Allowed base values are {allowed}"`
with `allowed = sorted(fields | fetch_fields | set(custom_filters))`. -/
def unknownFilterMsg (meta : ModelMeta) (cf : List (String × CustomFilter))
    (key : String) : String :=
  "Unknown filter param '" ++ key ++ "'. Allowed base values are " ++
  pyStrListRepr (pySortedSet (meta.fields ++ meta.fetch_fields ++ akeys cf))

/-- `hasattr(value, "pk") and value.pk or value`: model instances expose
their primary-key value. -/
def pkOrValue : FilterValue → FilterValue
  | .obj pk => pk
  | v => v

/-- `Q._get_actual_filter_params(model, key, value)`: canonicalise a raw
filter key/value pair, or raise `FieldError` for an unknown key. -/
def getActualFilterParams (meta : ModelMeta)
    (cf : List (String × CustomFilter)) (key : String) (value : FilterValue) :
    Except TortoiseError (String × FilterValue) :=
  if key ∈ meta.fk_fields ∨ key ∈ meta.o2o_fields then
    match alookup key meta.fields_map with
    | Option.none => .error (.keyError key)
    | some fo => .ok (fo.source_field, pkOrValue value)
  else if key ∈ meta.m2m_fields then
    .ok (key, pkOrValue value)
  else if (pySplit key "__").headD "" ∈ meta.fetch_fields ∨
      key ∈ akeys cf ∨ key ∈ akeys meta.filters then
    .ok (key, value)
  else
    .error (.fieldError (unknownFilterMsg meta cf key))

/-- The body of `_process_filter_kwarg` after the filter param is fetched:
either a relation-table filter (producing a primary-key join) or a plain
column filter (encoding the value through the symbolic encoder or
`_field_to_db`). -/
def processParam (meta : ModelMeta) (param : FilterParam)
    (value : FilterValue) : Except TortoiseError (Criterion × Option Join) :=
  match param.table with
  | some ptable =>
      let join : Join :=
        (ptable, Criterion.colEq meta.basetable meta.db_pk_field
          ptable param.backward_key)
      let v := match param.value_encoder with
        | some e => FilterValue.encoded e value
        | Option.none => value
      .ok (.op param.operator ptable param.field v, some join)
  | Option.none =>
      match alookup param.field meta.fields_map with
      | Option.none => .error (.keyError param.field)
      | some fo =>
          let ev := match param.value_encoder with
            | some e => FilterValue.encoded e value
            | Option.none => FilterValue.fieldToDb fo.name value
          .ok (.op param.operator meta.basetable param.source_field ev, Option.none)

/-- `_process_filter_kwarg(model, key, value)`: a `None` value whose key
has a registered `__isnull` companion is rewritten to that filter with
value `True`; otherwise the key's own filter param applies. -/
def processFilterKwarg (meta : ModelMeta) (key : String)
    (value : FilterValue) : Except TortoiseError (Criterion × Option Join) :=
  if value = FilterValue.none ∧ (key ++ "__isnull") ∈ akeys meta.filters then
    match alookup (key ++ "__isnull") meta.filters with
    | Option.none => .error (.keyError (key ++ "__isnull"))
    | some param => processParam meta param (.bool true)
  else
    match alookup key meta.filters with
    | Option.none => .error (.keyError key)
    | some param => processParam meta param value

/-- `_get_joins_for_related_field(table, related_field,
related_field_name)`.  The referenced model is looked up in the
environment (`.keyError` models a dangling reference, which cannot occur
with genuine object references). -/
def getJoinsForRelatedField (env : Env) (meta : ModelMeta) (table : String)
    (rf : RelatedField) (name : String) :
    Except TortoiseError (List Join) :=
  match alookup rf.fieldType env with
  | Option.none => .error (.keyError rf.fieldType)
  | some tmeta =>
      match rf with
      | .manyToMany _ through bk fk =>
          .ok [(through, .colEq table meta.db_pk_field through bk),
               (tmeta.basetable,
                .colEq through fk tmeta.basetable tmeta.db_pk_field)]
      | .backwardFK _ relationField =>
          .ok [(tmeta.basetable,
                .colEq table meta.db_pk_field tmeta.basetable relationField)]
      | .forwardFK _ =>
          .ok [(tmeta.basetable,
                .colEq tmeta.basetable tmeta.db_pk_field table (name ++ "_id"))]

/-!
## Filter nodes (`Q`)

A `Q` node: children, keyword filters, join type, negation flag and the
annotation / custom-filter registries injected at resolve time
(`_annotations`, `_custom_filters`, initially empty dicts). -/
inductive Q where
  | mk : List Q → List (String × FilterValue) → String → Bool →
         List (String × Annotation) → List (String × CustomFilter) → Q

mutual

/-- Decidable equality on `Q`, written out by hand because deriving does
not handle the nested `List Q` recursion on this toolchain. -/
def Q.decEq : (a b : Q) → Decidable (a = b)
  | .mk c₁ f₁ j₁ n₁ a₁ cf₁, .mk c₂ f₂ j₂ n₂ a₂ cf₂ =>
    if hf : f₁ = f₂ ∧ j₁ = j₂ ∧ n₁ = n₂ ∧ a₁ = a₂ ∧ cf₁ = cf₂ then
      match Q.decEqList c₁ c₂ with
      | isTrue hc => isTrue (by
          obtain ⟨h1, h2, h3, h4, h5⟩ := hf
          rw [hc, h1, h2, h3, h4, h5])
      | isFalse hc => isFalse (fun he => hc (by cases he; rfl))
    else
      isFalse (fun he => hf (by cases he; exact ⟨rfl, rfl, rfl, rfl, rfl⟩))

/-- Decidable equality on lists of `Q` nodes. -/
def Q.decEqList : (a b : List Q) → Decidable (a = b)
  | [], [] => isTrue rfl
  | [], _ :: _ => isFalse (by simp)
  | _ :: _, [] => isFalse (by simp)
  | x :: xs, y :: ys =>
    match Q.decEq x y, Q.decEqList xs ys with
    | isTrue h1, isTrue h2 => isTrue (by rw [h1, h2])
    | isFalse h1, _ => isFalse (fun he => h1 (by cases he; rfl))
    | _, isFalse h2 => isFalse (fun he => h2 (by cases he; rfl))

end

instance : DecidableEq Q := Q.decEq

/-- `self.children`. -/
def Q.children : Q → List Q
  | .mk c _ _ _ _ _ => c

/-- `self.filters`. -/
def Q.filters : Q → List (String × FilterValue)
  | .mk _ f _ _ _ _ => f

/-- `self.join_type`. -/
def Q.join_type : Q → String
  | .mk _ _ j _ _ _ => j

/-- `self._is_negated`. -/
def Q.is_negated : Q → Bool
  | .mk _ _ _ n _ _ => n

/-- `self._annotations`. -/
def Q.annotations : Q → List (String × Annotation)
  | .mk _ _ _ _ a _ => a

/-- `self._custom_filters`. -/
def Q.custom_filters : Q → List (String × CustomFilter)
  | .mk _ _ _ _ _ c => c

/-- A positional argument of `Q(...)`: either a genuine `Q` node or some
other Python value (rejected by the `isinstance` check), carried
opaquely. -/
inductive QArg where
  | node : Q → QArg
  | nonNode : String → QArg
deriving DecidableEq

/-- The `isinstance(node, Q)` test. -/
def QArg.isNode : QArg → Bool
  | .node _ => true
  | .nonNode _ => false

/-- The `Q` payloads of a list of arguments that are all nodes. -/
def argNodes (l : List QArg) : List Q :=
  l.filterMap (fun a => match a with
    | QArg.node q => some q
    | QArg.nonNode _ => Option.none)

/-- The validating tail of `Q.__init__` (after the arg/kwarg wrap): all
positional arguments must be `Q` nodes and the join type must be `AND` or
`OR`, else `OperationalError`; on success the node starts un-negated with
empty registries. -/
def mkQ0 (args : List QArg) (joinType : String)
    (kwargs : List (String × FilterValue)) : Except TortoiseError Q :=
  if ¬ (args.all QArg.isNode) then
    .error (.operationalError "All ordered arguments must be Q nodes")
  else if ¬ (joinType = "AND" ∨ joinType = "OR") then
    .error (.operationalError "join_type must be AND or OR")
  else
    .ok (Q.mk (argNodes args) kwargs joinType false [] [])

/-- `Q.__init__(*args, join_type=..., **kwargs)`: when both positional
arguments and keyword filters are given, the keyword filters are first
wrapped into their own node (`Q(join_type=join_type, **kwargs)`) and
prepended to the positional arguments; then the validations run. -/
def mkQ (args : List QArg) (joinType : String)
    (kwargs : List (String × FilterValue)) : Except TortoiseError Q :=
  if args ≠ [] ∧ kwargs ≠ [] then
    match mkQ0 [] joinType kwargs with
    | .error e => .error e
    | .ok newarg => mkQ0 (QArg.node newarg :: args) joinType []
  else
    mkQ0 args joinType kwargs

/-- `Q.negate()`: toggle the negation flag. -/
def negateQ (q : Q) : Q :=
  Q.mk q.children q.filters q.join_type (! q.is_negated)
    q.annotations q.custom_filters

/-- `Q.__invert__`: rebuild the node from its children, join type and
filters (a fresh, un-negated copy with empty registries), then toggle the
copy's flag. -/
def applyInvert (q : Q) : Except TortoiseError Q :=
  match mkQ (q.children.map QArg.node) q.join_type q.filters with
  | .error e => .error e
  | .ok r => .ok (negateQ r)

/-- `~~q`: `Q.__invert__` applied twice. -/
def doubleInvert (q : Q) : Except TortoiseError Q :=
  match applyInvert q with
  | .error e => .error e
  | .ok r => applyInvert r

/-- `Q._resolve_custom_kwarg(model, key, value)`: look up the custom
filter and its annotation, apply a backend-overridden operator when one
exists, and place the comparison in the having slot when the annotation
is an aggregate, else in the row-predicate slot. -/
def resolveCustom (meta : ModelMeta) (ann : List (String × Annotation))
    (cf : List (String × CustomFilter)) (key : String) (value : FilterValue) :
    Except TortoiseError QueryModifier :=
  match alookup key cf with
  | Option.none => .error (.keyError key)
  | some hi =>
      match alookup hi.field ann with
      | Option.none => .error (.keyError hi.field)
      | some a =>
          let operator := match alookup hi.operator meta.overridden_filters with
            | some o => o
            | Option.none => hi.operator
          if a.is_aggregate then
            .ok ⟨.empty, [], .termOp operator a.term value⟩
          else
            .ok ⟨.termOp operator a.term value, [], .empty⟩

/-- Fold one modifier into the accumulator with the node's join type
(`modifier &= ...` / `modifier |= ...`). -/
def combineModifier (jt : String) (acc m : QueryModifier) : QueryModifier :=
  if jt = "AND" then qmAnd acc m else qmOr acc m

mutual

/-- `Q.resolve(model, annotations, custom_filters)`: store the supplied
registries on the node (the returned `Q` is the node's state after the
call), then resolve through the kwargs path when the node carries
filters, else through the children path; negation is applied to the
folded modifier as the final step of either path.  The `Nat` argument is
recursion fuel (see `TortoiseError.outOfFuel`). -/
def resolveQ : Nat → Env → ModelMeta → List (String × Annotation) →
    List (String × CustomFilter) → Q →
    Except TortoiseError (QueryModifier × Q)
  | 0, _, _, _, _, _ => .error .outOfFuel
  | fuel + 1, env, meta, ann, cf, q =>
    if q.filters ≠ [] then
      match resolveKwargs fuel env meta ann cf q.join_type emptyQM q.filters with
      | .error e => .error e
      | .ok m =>
          .ok (if q.is_negated then qmNot m else m,
               Q.mk q.children q.filters q.join_type q.is_negated ann cf)
    else
      match resolveChildren fuel env meta ann cf q.join_type emptyQM q.children with
      | .error e => .error e
      | .ok (m, ch) =>
          .ok (if q.is_negated then qmNot m else m,
               Q.mk ch q.filters q.join_type q.is_negated ann cf)

/-- The loop of `Q._resolve_kwargs`: canonicalise each raw pair, dispatch
to the custom or regular resolver, and fold with the join type. -/
def resolveKwargs : Nat → Env → ModelMeta → List (String × Annotation) →
    List (String × CustomFilter) → String → QueryModifier →
    List (String × FilterValue) → Except TortoiseError QueryModifier
  | 0, _, _, _, _, _, _, _ => .error .outOfFuel
  | _ + 1, _, _, _, _, _, acc, [] => .ok acc
  | fuel + 1, env, meta, ann, cf, jt, acc, (rk, rv) :: rest =>
    match getActualFilterParams meta cf rk rv with
    | .error e => .error e
    | .ok kv =>
        match (if kv.1 ∈ akeys cf then
                 resolveCustom meta ann cf kv.1 kv.2
               else
                 resolveRegular fuel env meta ann cf kv.1 kv.2) with
        | .error e => .error e
        | .ok fm =>
            resolveKwargs fuel env meta ann cf jt (combineModifier jt acc fm) rest

/-- `Q._resolve_regular_kwarg(model, key, value)`: a key that is not a
registered comparison filter but whose first dotted segment is a
traversable relation resolves as a nested filter; every other key goes
through `_process_filter_kwarg`. -/
def resolveRegular : Nat → Env → ModelMeta → List (String × Annotation) →
    List (String × CustomFilter) → String → FilterValue →
    Except TortoiseError QueryModifier
  | 0, _, _, _, _, _, _ => .error .outOfFuel
  | fuel + 1, env, meta, ann, cf, key, value =>
    if key ∉ akeys meta.filters ∧
        (pySplit key "__").headD "" ∈ meta.fetch_fields then
      resolveNested fuel env meta ann cf key value
    else
      match processFilterKwarg meta key value with
      | .error e => .error e
      | .ok cj => .ok ⟨cj.1, cj.2.toList, .empty⟩

/-- `Q._resolve_nested_filter(model, key, value)`: compute the joins for
the relation named by the first dotted segment, resolve the remaining
path as a fresh one-filter node against the related model, and conjoin a
joins-only modifier with the sub-resolution. -/
def resolveNested : Nat → Env → ModelMeta → List (String × Annotation) →
    List (String × CustomFilter) → String → FilterValue →
    Except TortoiseError QueryModifier
  | 0, _, _, _, _, _, _ => .error .outOfFuel
  | fuel + 1, env, meta, ann, cf, key, value =>
    let rfn := (pySplit key "__").headD ""
    match alookup rfn meta.fields_map with
    | Option.none => .error (.keyError rfn)
    | some fo =>
        match fo.relation with
        | Option.none => .error (.attributeError fo.name)
        | some rel =>
            match getJoinsForRelatedField env meta meta.basetable rel rfn with
            | .error e => .error e
            | .ok joins =>
                match alookup rel.fieldType env with
                | Option.none => .error (.keyError rel.fieldType)
                | some tmeta =>
                    match resolveQ fuel env tmeta ann cf
                        (Q.mk []
                          [(String.intercalate "__" (pySplit key "__").tail,
                            value)] "AND" false [] []) with
                    | .error e => .error e
                    | .ok mq => .ok (qmAnd ⟨.empty, joins, .empty⟩ mq.1)

/-- The loop of `Q._resolve_children`: resolve each child against the
same model and registries, folding with the join type; the updated
children (with stored registries) are returned alongside. -/
def resolveChildren : Nat → Env → ModelMeta → List (String × Annotation) →
    List (String × CustomFilter) → String → QueryModifier → List Q →
    Except TortoiseError (QueryModifier × List Q)
  | 0, _, _, _, _, _, _, _ => .error .outOfFuel
  | _ + 1, _, _, _, _, _, acc, [] => .ok (acc, [])
  | fuel + 1, env, meta, ann, cf, jt, acc, c :: rest =>
    match resolveQ fuel env meta ann cf c with
    | .error e => .error e
    | .ok mc =>
        match resolveChildren fuel env meta ann cf jt
            (combineModifier jt acc mc.1) rest with
        | .error e => .error e
        | .ok mrest => .ok (mrest.1, mc.2 :: mrest.2)

end

/-- A node with its annotation and custom-filter registries (and those of
all descendants) cleared: the part of a node's state that `resolve` never
changes. -/
def eraseRegistries : Q → Q
  | .mk ch f jt neg _ _ =>
      Q.mk (ch.attach.map (fun c => eraseRegistries c.1)) f jt neg [] []
termination_by q => sizeOf q
decreasing_by
  have h := List.sizeOf_lt_of_mem c.2
  simp only [Q.mk.sizeOf_spec]
  omega

/-!
## Claims about kwarg classification, processing and joins
-/

section KwargClaims

/-- C10: when the filter value is `None` and a `<key>__isnull` filter is
registered, `_process_filter_kwarg` produces exactly what it produces for
`(<key>__isnull, True)`: the `None` comparison is rewritten to an IS NULL
check. -/
theorem isnull_rewrite (meta : ModelMeta) (key : String)
    (h : (key ++ "__isnull") ∈ akeys meta.filters) :
    processFilterKwarg meta key .none =
      processFilterKwarg meta (key ++ "__isnull") (.bool true) := by
  unfold processFilterKwarg
  rw [if_pos ⟨rfl, h⟩, if_neg (fun hc => FilterValue.noConfusion hc.1)]

/-- A plain equality filter param on the `name` column. -/
def paramNameW : FilterParam := ⟨"name", "name", "eq", Option.none, "", Option.none⟩

/-- The `name__isnull` filter param. -/
def paramIsnullW : FilterParam :=
  ⟨"name", "name", "isnull", Option.none, "", Option.none⟩

/-- The `name` column's fields-map entry. -/
def fieldNameW : FieldInfo := ⟨"name", "name", Option.none⟩

/-- A small concrete model metadata used by several witnesses: a `user`
table with columns `name` and `age`, a traversable relation `friends`,
and filters `name` / `name__isnull`. -/
def metaW : ModelMeta :=
  ⟨"user", "id", ["name", "age"], ["friends"], [], [], [],
   [("name", paramNameW), ("name__isnull", paramIsnullW)],
   [("name", fieldNameW)], []⟩

/-- Witness for `isnull_rewrite` on `metaW`. -/
theorem isnull_rewrite_witness :
    ("name" ++ "__isnull") ∈ akeys metaW.filters ∧
    processFilterKwarg metaW "name" .none =
      processFilterKwarg metaW ("name" ++ "__isnull") (.bool true) :=
  ⟨by decide, isnull_rewrite metaW "name" (by decide)⟩

/-- C7: a filter key that is not a foreign-key/one-to-one field, not a
many-to-many field, whose first dotted segment is not a traversable
relation, and that is neither a custom filter nor a registered comparison
filter, makes `_get_actual_filter_params` fail with the `FieldError`
whose message names the key and the sorted list of declared fields,
traversable relations and custom filter names. -/
theorem unknown_filter_param_error (meta : ModelMeta)
    (cf : List (String × CustomFilter)) (key : String) (value : FilterValue)
    (h1 : key ∉ meta.fk_fields) (h2 : key ∉ meta.o2o_fields)
    (h3 : key ∉ meta.m2m_fields)
    (h4 : (pySplit key "__").headD "" ∉ meta.fetch_fields)
    (h5 : key ∉ akeys cf) (h6 : key ∉ akeys meta.filters) :
    getActualFilterParams meta cf key value =
      .error (.fieldError (unknownFilterMsg meta cf key)) := by
  unfold getActualFilterParams
  rw [if_neg (by tauto), if_neg h3, if_neg (by tauto)]

/-- Witness for `unknown_filter_param_error` on `metaW`, also checking
the exact rendered message. -/
theorem unknown_filter_param_error_witness :
    getActualFilterParams metaW [] "bogus" (.int 1) =
      .error (.fieldError (unknownFilterMsg metaW [] "bogus")) ∧
    unknownFilterMsg metaW [] "bogus" =
      "Unknown filter param 'bogus'. Allowed base values are ['age', 'friends', 'name']" :=
  ⟨unknown_filter_param_error metaW [] "bogus" (.int 1) (by decide) (by decide)
    (by decide) (by decide) (by decide) (by decide), by decide⟩

/-- C8: a many-to-many relation descriptor resolves to exactly two joins
in order: the through-table on origin primary key = through backward key,
then the target table on through forward key = target primary key. -/
theorem m2m_join_order (env : Env) (meta tmeta : ModelMeta) (table : String)
    (ft through bk fk name : String)
    (h : alookup ft env = some tmeta) :
    getJoinsForRelatedField env meta table
        (.manyToMany ft through bk fk) name =
      .ok [(through, .colEq table meta.db_pk_field through bk),
           (tmeta.basetable,
            .colEq through fk tmeta.basetable tmeta.db_pk_field)] := by
  unfold getJoinsForRelatedField
  simp [RelatedField.fieldType, h]

/-- Witness for `m2m_join_order`: a `user.friends` many-to-many through
`user_friends`. -/
theorem m2m_join_order_witness :
    alookup "user" [("user", metaW)] = some metaW ∧
    getJoinsForRelatedField [("user", metaW)] metaW "user"
        (.manyToMany "user" "user_friends" "user_id" "friend_id") "friends" =
      .ok [("user_friends", .colEq "user" "id" "user_friends" "user_id"),
           ("user", .colEq "user_friends" "friend_id" "user" "id")] :=
  ⟨by decide,
   m2m_join_order [("user", metaW)] metaW metaW "user" "user" "user_friends"
     "user_id" "friend_id" "friends" (by decide)⟩

end KwargClaims

/-!
## Claims about `Q` construction and negation
-/

section QConstruction

/-- `argNodes` undoes wrapping a node list into arguments. -/
theorem argNodes_map_node (l : List Q) : argNodes (l.map QArg.node) = l := by
  induction l with
  | nil => rfl
  | cons x xs ih =>
      simp only [List.map_cons, argNodes, List.filterMap_cons] at ih ⊢
      rw [ih]

/-- Wrapped node lists pass the `isinstance` check. -/
theorem all_map_node (l : List Q) :
    (l.map QArg.node).all QArg.isNode = true := by
  simp [List.all_eq_true, QArg.isNode]

/-- `mkQ0` fails on a non-node argument. -/
theorem mkQ0_args_error (args : List QArg) (jt : String)
    (kwargs : List (String × FilterValue))
    (h : ∃ a ∈ args, a.isNode = false) :
    mkQ0 args jt kwargs =
      .error (.operationalError "All ordered arguments must be Q nodes") := by
  have hcond : ¬ (args.all QArg.isNode = true) := by
    intro hall
    obtain ⟨a, ha, hna⟩ := h
    have := List.all_eq_true.mp hall a ha
    rw [hna] at this
    exact Bool.noConfusion this
  unfold mkQ0
  rw [if_pos hcond]

/-- `mkQ0` fails on an invalid join type once the arguments pass. -/
theorem mkQ0_jt_error (args : List QArg) (jt : String)
    (kwargs : List (String × FilterValue))
    (hall : args.all QArg.isNode = true)
    (hjt : ¬ (jt = "AND" ∨ jt = "OR")) :
    mkQ0 args jt kwargs =
      .error (.operationalError "join_type must be AND or OR") := by
  unfold mkQ0
  rw [if_neg (not_not_intro hall), if_pos hjt]

/-- `mkQ0` on genuine nodes and a valid join type builds the node. -/
theorem mkQ0_nodes_ok (l : List Q) (jt : String)
    (kwargs : List (String × FilterValue)) (hjt : jt = "AND" ∨ jt = "OR") :
    mkQ0 (l.map QArg.node) jt kwargs =
      .ok (Q.mk l kwargs jt false [] []) := by
  unfold mkQ0
  rw [if_neg (not_not_intro (all_map_node l)), if_neg (not_not_intro hjt),
    argNodes_map_node]

/-- `mkQ0` with no arguments and a valid join type. -/
theorem mkQ0_nil_ok (jt : String) (kwargs : List (String × FilterValue))
    (hjt : jt = "AND" ∨ jt = "OR") :
    mkQ0 [] jt kwargs = .ok (Q.mk [] kwargs jt false [] []) :=
  mkQ0_nodes_ok [] jt kwargs hjt

/-- C4 (amended): constructing a Filter Node with a positional argument
that is not a `Q` node fails with `OperationalError`, and constructing
one with a join type other than `AND`/`OR` fails with `OperationalError`;
both failures happen in the constructor itself, before any resolution. -/
theorem q_construction_errors :
    (∀ (args : List QArg) (joinType : String)
        (kwargs : List (String × FilterValue)),
      (∃ a ∈ args, a.isNode = false) →
      ∃ msg, mkQ args joinType kwargs = .error (.operationalError msg)) ∧
    (∀ (args : List QArg) (joinType : String)
        (kwargs : List (String × FilterValue)),
      ¬ (joinType = "AND" ∨ joinType = "OR") →
      ∃ msg, mkQ args joinType kwargs = .error (.operationalError msg)) := by
  constructor
  · intro args jt kwargs h
    have hargsne : args ≠ [] := by
      obtain ⟨a, ha, _⟩ := h
      intro hn
      subst hn
      simp at ha
    unfold mkQ
    by_cases hk : kwargs = []
    · rw [if_neg (by simp [hk])]
      exact ⟨_, mkQ0_args_error args jt kwargs h⟩
    · rw [if_pos ⟨hargsne, hk⟩]
      by_cases hjt : jt = "AND" ∨ jt = "OR"
      · rw [mkQ0_nil_ok jt kwargs hjt]
        refine ⟨_, mkQ0_args_error _ jt [] ?_⟩
        obtain ⟨a, ha, hna⟩ := h
        exact ⟨a, List.mem_cons_of_mem _ ha, hna⟩
      · rw [mkQ0_jt_error [] jt kwargs rfl hjt]
        exact ⟨_, rfl⟩
  · intro args jt kwargs hjt
    unfold mkQ
    by_cases hw : args ≠ [] ∧ kwargs ≠ []
    · rw [if_pos hw, mkQ0_jt_error [] jt kwargs rfl hjt]
      exact ⟨_, rfl⟩
    · rw [if_neg hw]
      by_cases hall : args.all QArg.isNode = true
      · exact ⟨_, mkQ0_jt_error args jt kwargs hall hjt⟩
      · refine ⟨"All ordered arguments must be Q nodes", ?_⟩
        unfold mkQ0
        rw [if_pos hall]

/-- Witness for `q_construction_errors` at concrete bad inputs. -/
theorem q_construction_errors_witness :
    (∃ a ∈ [QArg.nonNode "x"], a.isNode = false) ∧
    (∃ msg, mkQ [QArg.nonNode "x"] "AND" [] =
      .error (.operationalError msg)) ∧
    ¬ ("XOR" = "AND" ∨ "XOR" = "OR") ∧
    (∃ msg, mkQ [] "XOR" [("name", FilterValue.str "x")] =
      .error (.operationalError msg)) :=
  ⟨⟨QArg.nonNode "x", by simp, rfl⟩,
   q_construction_errors.1 [QArg.nonNode "x"] "AND" []
     ⟨QArg.nonNode "x", by simp, rfl⟩,
   by decide,
   q_construction_errors.2 [] "XOR" [("name", FilterValue.str "x")]
     (by decide)⟩

/-- Classifier for the exception class an embedded call raised. -/
def raisedValidationError {α : Type} : Except TortoiseError α → Bool
  | .error (.validationError _) => true
  | _ => false

/-- C4 counterexample: both construction failures raise
`OperationalError`, not the `ValidationError` the claim names. -/
theorem q_construction_not_validation_error :
    mkQ [QArg.nonNode "x"] "AND" [] =
      .error (.operationalError "All ordered arguments must be Q nodes") ∧
    raisedValidationError (mkQ [QArg.nonNode "x"] "AND" []) = false ∧
    mkQ [] "XOR" [] =
      .error (.operationalError "join_type must be AND or OR") ∧
    raisedValidationError (mkQ [] "XOR" ([] : List (String × FilterValue)))
      = false := by
  refine ⟨rfl, rfl, rfl, rfl⟩

end QConstruction

section QNegation

/-- Computation of `Q.__init__` on wrapped node arguments: when both
children and filters are present the filters are wrapped into an extra
leading child. -/
theorem mkQ_map_node (l : List Q) (jt : String)
    (kwargs : List (String × FilterValue)) (hjt : jt = "AND" ∨ jt = "OR") :
    mkQ (l.map QArg.node) jt kwargs =
      if l ≠ [] ∧ kwargs ≠ [] then
        .ok (Q.mk (Q.mk [] kwargs jt false [] [] :: l) [] jt false [] [])
      else .ok (Q.mk l kwargs jt false [] []) := by
  unfold mkQ
  by_cases hcf : l ≠ [] ∧ kwargs ≠ []
  · rw [if_pos ⟨by simpa using hcf.1, hcf.2⟩, if_pos hcf,
      mkQ0_nil_ok jt kwargs hjt]
    show mkQ0 ((Q.mk [] kwargs jt false [] [] :: l).map QArg.node) jt []
        = .ok (Q.mk (Q.mk [] kwargs jt false [] [] :: l) [] jt false [] [])
    exact mkQ0_nodes_ok _ jt [] hjt
  · rw [if_neg (by simpa using hcf), if_neg hcf]
    exact mkQ0_nodes_ok l jt kwargs hjt

/-- Computation of `Q.__invert__` on a destructured node: the copy is
rebuilt from children, join type and filters (wrapping the filters into
an extra child when both are present), starts un-negated with empty
registries, and then has its flag toggled — so the result’s flag is
always `true`, whatever the input flag was. -/
theorem applyInvert_mk (ch : List Q) (f : List (String × FilterValue))
    (jt : String) (neg : Bool) (a : List (String × Annotation))
    (c : List (String × CustomFilter)) (hjt : jt = "AND" ∨ jt = "OR") :
    applyInvert (Q.mk ch f jt neg a c) =
      .ok (if ch ≠ [] ∧ f ≠ [] then
             Q.mk (Q.mk [] f jt false [] [] :: ch) [] jt true [] []
           else Q.mk ch f jt true [] []) := by
  unfold applyInvert
  simp only [Q.children, Q.filters, Q.join_type]
  rw [mkQ_map_node ch jt f hjt]
  by_cases hcf : ch ≠ [] ∧ f ≠ []
  · rw [if_pos hcf, if_pos hcf]
    rfl
  · rw [if_neg hcf, if_neg hcf]
    rfl

/-- C5 (amended): `__invert__` always returns a node whose negation flag
is set (the fresh copy starts un-negated and `negate()` is then applied
once), so applying it twice yields exactly the node `~q` again: `~~q`
equals `~q`, and therefore resolves, against every model and registries,
to the same Query Modifier as `~q` — not as `q`. -/
theorem invert_invert_eq_invert (q : Q)
    (hjt : q.join_type = "AND" ∨ q.join_type = "OR") :
    ∃ q1, applyInvert q = .ok q1 ∧ applyInvert q1 = .ok q1 ∧
      doubleInvert q = .ok q1 := by
  cases q with
  | mk ch f jt neg a c =>
    simp only [Q.join_type] at hjt
    by_cases hcf : ch ≠ [] ∧ f ≠ []
    · refine ⟨Q.mk (Q.mk [] f jt false [] [] :: ch) [] jt true [] [],
        ?_, ?_, ?_⟩
      · rw [applyInvert_mk ch f jt neg a c hjt, if_pos hcf]
      · rw [applyInvert_mk _ _ jt true [] [] hjt, if_neg (by simp)]
      · unfold doubleInvert
        rw [applyInvert_mk ch f jt neg a c hjt, if_pos hcf]
        show applyInvert (Q.mk (Q.mk [] f jt false [] [] :: ch) [] jt true
            [] []) = .ok (Q.mk (Q.mk [] f jt false [] [] :: ch) [] jt true
            [] [])
        rw [applyInvert_mk _ _ jt true [] [] hjt, if_neg (by simp)]
    · refine ⟨Q.mk ch f jt true [] [], ?_, ?_, ?_⟩
      · rw [applyInvert_mk ch f jt neg a c hjt, if_neg hcf]
      · rw [applyInvert_mk ch f jt true [] [] hjt, if_neg hcf]
      · unfold doubleInvert
        rw [applyInvert_mk ch f jt neg a c hjt, if_neg hcf]
        show applyInvert (Q.mk ch f jt true [] [])
            = .ok (Q.mk ch f jt true [] [])
        rw [applyInvert_mk ch f jt true [] [] hjt, if_neg hcf]

/-- Witness for `invert_invert_eq_invert` at a concrete node. -/
theorem invert_invert_eq_invert_witness :
    ((Q.mk [] [("name", FilterValue.str "x")] "OR" false [] []).join_type
        = "AND" ∨
     (Q.mk [] [("name", FilterValue.str "x")] "OR" false [] []).join_type
        = "OR") ∧
    ∃ q1, applyInvert (Q.mk [] [("name", FilterValue.str "x")] "OR" false
        [] []) = .ok q1 ∧
      applyInvert q1 = .ok q1 ∧
      doubleInvert (Q.mk [] [("name", FilterValue.str "x")] "OR" false
        [] []) = .ok q1 :=
  ⟨Or.inr rfl,
   invert_invert_eq_invert
     (Q.mk [] [("name", FilterValue.str "x")] "OR" false [] [])
     (Or.inr rfl)⟩

/-- C5 counterexample: for the un-negated node `Q(name="x")`, `~~q` is a
negated node, and resolving it against `metaW` yields the negated
modifier, not `q`'s own modifier — the second `~` does not cancel the
first. -/
theorem double_negation_not_identity :
    doubleInvert (Q.mk [] [("name", FilterValue.str "x")] "AND" false [] [])
      = .ok (Q.mk [] [("name", FilterValue.str "x")] "AND" true [] []) ∧
    resolveQ 5 [] metaW [] []
        (Q.mk [] [("name", FilterValue.str "x")] "AND" false [] []) =
      .ok (⟨.op "eq" "user" "name" (.fieldToDb "name" (.str "x")), [],
            .empty⟩,
           Q.mk [] [("name", FilterValue.str "x")] "AND" false [] []) ∧
    resolveQ 5 [] metaW [] []
        (Q.mk [] [("name", FilterValue.str "x")] "AND" true [] []) =
      .ok (⟨.not (.op "eq" "user" "name" (.fieldToDb "name" (.str "x"))), [],
            .empty⟩,
           Q.mk [] [("name", FilterValue.str "x")] "AND" true [] []) ∧
    (⟨.not (.op "eq" "user" "name" (.fieldToDb "name" (.str "x"))), [],
      .empty⟩ : QueryModifier) ≠
      ⟨.op "eq" "user" "name" (.fieldToDb "name" (.str "x")), [], .empty⟩ := by
  refine ⟨rfl, rfl, rfl, by decide⟩

end QNegation

section ResolveShape

/-- Unfolding of `eraseRegistries` on a constructor. -/
theorem eraseRegistries_mk (ch : List Q) (f : List (String × FilterValue))
    (jt : String) (neg : Bool) (a : List (String × Annotation))
    (c : List (String × CustomFilter)) :
    eraseRegistries (Q.mk ch f jt neg a c) =
      Q.mk (ch.map eraseRegistries) f jt neg [] [] := by
  rw [eraseRegistries]
  simp [List.attach_map_val]

/-- Joint fuel induction: a successful `resolveQ` returns a post-state
that agrees with the input node up to the stored registries, which are
overwritten with the supplied ones; a successful `resolveChildren`
returns children that agree with the input children up to registries. -/
theorem resolve_shape_aux : ∀ fuel : Nat,
    (∀ env meta ann cf q r, resolveQ fuel env meta ann cf q = .ok r →
        eraseRegistries r.2 = eraseRegistries q ∧
        r.2.annotations = ann ∧ r.2.custom_filters = cf) ∧
    (∀ env meta ann cf jt acc cs r,
        resolveChildren fuel env meta ann cf jt acc cs = .ok r →
        r.2.map eraseRegistries = cs.map eraseRegistries) := by
  intro fuel
  induction fuel with
  | zero =>
    constructor
    · intro env meta ann cf q r hr
      simp [resolveQ] at hr
    · intro env meta ann cf jt acc cs r hr
      simp [resolveChildren] at hr
  | succ n ih =>
    obtain ⟨ihQ, ihC⟩ := ih
    constructor
    · intro env meta ann cf q r hr
      cases q with
      | mk ch f jt neg a c =>
        simp only [resolveQ, Q.filters, Q.children, Q.join_type,
          Q.is_negated] at hr
        split at hr
        · split at hr
          · exact absurd hr (by simp)
          · injection hr with h
            subst h
            refine ⟨?_, rfl, rfl⟩
            rw [eraseRegistries_mk, eraseRegistries_mk]
        · split at hr
          · exact absurd hr (by simp)
          · next m ch' heq =>
            injection hr with h
            subst h
            refine ⟨?_, rfl, rfl⟩
            rw [eraseRegistries_mk, eraseRegistries_mk]
            have := ihC env meta ann cf jt emptyQM ch (m, ch') heq
            simp only at this
            rw [this]
    · intro env meta ann cf jt acc cs r hr
      cases cs with
      | nil =>
        simp only [resolveChildren] at hr
        injection hr with h
        subst h
        rfl
      | cons c rest =>
        simp only [resolveChildren] at hr
        split at hr
        · exact absurd hr (by simp)
        · next mc heq =>
          split at hr
          · exact absurd hr (by simp)
          · next mrest heq2 =>
            injection hr with h
            subst h
            simp only [List.map_cons]
            rw [(ihQ env meta ann cf c mc heq).1,
              ihC env meta ann cf jt (combineModifier jt acc mc.1) rest
                mrest heq2]

/-- C9 (amended): a successful `resolve` never changes the tree
structure, filters, join types or negation flags of the node or its
descendants (the post-state equals the input node once the stored
registries are erased on both), but it does overwrite the node's
annotation and custom-filter references with the supplied registries —
the one mutation `Q.resolve` performs. -/
theorem resolve_preserves_tree (fuel : Nat) (env : Env) (meta : ModelMeta)
    (ann : List (String × Annotation)) (cf : List (String × CustomFilter))
    (q : Q) (m : QueryModifier) (q' : Q)
    (h : resolveQ fuel env meta ann cf q = .ok (m, q')) :
    eraseRegistries q' = eraseRegistries q ∧
    q'.children.map eraseRegistries = q.children.map eraseRegistries ∧
    q'.filters = q.filters ∧ q'.join_type = q.join_type ∧
    q'.is_negated = q.is_negated ∧
    q'.annotations = ann ∧ q'.custom_filters = cf := by
  obtain ⟨herase, hann, hcf⟩ :=
    (resolve_shape_aux fuel).1 env meta ann cf q (m, q') h
  simp only at herase hann hcf
  cases q with
  | mk ch f jt neg a c =>
    cases q' with
    | mk ch' f' jt' neg' a' c' =>
      have herase2 := herase
      rw [eraseRegistries_mk, eraseRegistries_mk] at herase2
      injection herase2 with h1 h2 h3 h4
      refine ⟨herase, ?_, ?_, ?_, ?_, hann, hcf⟩ <;>
        simp [Q.children, Q.filters, Q.join_type, Q.is_negated,
          h1, h2, h3, h4]

/-- Witness for `resolve_preserves_tree`: resolving `Q(name="x")` against
`metaW` with empty registries returns the node unchanged. -/
theorem resolve_preserves_tree_witness :
    resolveQ 5 [] metaW [] []
        (Q.mk [] [("name", FilterValue.str "x")] "AND" false [] []) =
      .ok (⟨.op "eq" "user" "name" (.fieldToDb "name" (.str "x")), [],
            .empty⟩,
           Q.mk [] [("name", FilterValue.str "x")] "AND" false [] []) ∧
    eraseRegistries (Q.mk [] [("name", FilterValue.str "x")] "AND" false
        [] []) =
      eraseRegistries (Q.mk [] [("name", FilterValue.str "x")] "AND" false
        [] []) :=
  ⟨rfl,
   (resolve_preserves_tree 5 [] metaW [] []
     (Q.mk [] [("name", FilterValue.str "x")] "AND" false [] []) _ _
     rfl).1⟩

/-- C9 counterexample: resolving with a non-empty annotations registry
stores that registry on the node — the post-state differs from the
pre-state, so resolution is not mutation-free. -/
theorem resolve_mutates_registries :
    resolveQ 5 [] metaW [("cnt", ⟨"count_term", true⟩)] []
        (Q.mk [] [("name", FilterValue.str "x")] "AND" false [] []) =
      .ok (⟨.op "eq" "user" "name" (.fieldToDb "name" (.str "x")), [],
            .empty⟩,
           Q.mk [] [("name", FilterValue.str "x")] "AND" false
             [("cnt", ⟨"count_term", true⟩)] []) ∧
    Q.mk [] [("name", FilterValue.str "x")] "AND" false
        [("cnt", ⟨"count_term", true⟩)] [] ≠
      Q.mk [] [("name", FilterValue.str "x")] "AND" false [] [] := by
  refine ⟨rfl, by decide⟩

end ResolveShape
